import Mathlib

/-
Shallow embedding of the PiE_Cpp_Blackjack round-resolution engine:
the Card class (Card.cpp), the Hand class (Hand.cpp) and the Blackjack
class (Blackjack.cpp).  All strings occurring in the program are ASCII,
so C++ byte-wise string comparison coincides with comparison of Lean
character lists by code point.
-/

/-- Lexicographic strict comparison of character lists, modelling the C++
`std::string` `operator<` (byte-wise lexicographic order). -/
def lexLt : List Char → List Char → Bool
  | [], [] => false
  | [], _ :: _ => true
  | _ :: _, [] => false
  | a :: as, b :: bs => if a < b then true else if b < a then false else lexLt as bs

/-- C++ string comparison `s < t`. -/
def strLt (s t : String) : Bool := lexLt s.data t.data

/-- Numeric value of the longest digit prefix of a character list
(accumulator form), modelling the digit-parsing core of `std::stoi`. -/
def digitPrefixVal : List Char → Nat → Nat
  | c :: rest, acc =>
      if c.isDigit then digitPrefixVal rest (acc * 10 + (c.toNat - '0'.toNat)) else acc
  | [], acc => acc

/-- `std::stoi` on the strings reachable in `Card::getGameValue` (which all
start with a digit there, and are small enough not to overflow `int`):
the value of the longest digit prefix. -/
def stoiM (s : String) : Nat := digitPrefixVal s.data 0

/-- A playing card as in Card.cpp: a face-value string and a symbol string. -/
structure Card where
  faceValueString : String
  symbolString : String
  deriving DecidableEq, Repr

/-- `Card::isAce`: true iff the face value string is "A". -/
def Card.isAce (c : Card) : Bool := c.faceValueString == "A"

/-- `Card::getGameValue` as a function of the face-value string:
if `"2" <= s && s <= "9"` (C++ lexicographic string comparison) return
`stoi(s)`; else 10 for "10"/"J"/"Q"/"K"; else 11 for "A"; else 0. -/
def gameValueOfFace (s : String) : Nat :=
  if !strLt s "2" && !strLt "9" s then stoiM s
  else if s = "10" ∨ s = "J" ∨ s = "Q" ∨ s = "K" then 10
  else if s = "A" then 11
  else 0

/-- `Card::getGameValue`. -/
def Card.getGameValue (c : Card) : Nat := gameValueOfFace c.faceValueString

/-- A hand is the ordered `cardsInHand` vector of Hand.cpp. -/
abbrev Hand := List Card

/-- `Hand::addCard` / `push_back`: append at the end. -/
def addCard (h : Hand) (c : Card) : Hand := h ++ [c]

/-- The running sum accumulated by the for-loop of `Blackjack::sumOptimal`:
the sum of the nominal game values of all cards. -/
def nominalSum (h : Hand) : Nat := (h.map Card.getGameValue).sum

/-- The ace counter accumulated by the for-loop of `Blackjack::sumOptimal`. -/
def aceCount (h : Hand) : Nat := h.countP Card.isAce

/-- The while-loop of `Blackjack::sumOptimal`:
`while (sum > 21 && numberOfAcesInHand > 0) { sum -= 10; numberOfAcesInHand--; }`,
structurally recursive on the ace counter. -/
def reduceAces : Nat → Nat → Nat
  | s, 0 => s
  | s, n + 1 => if 21 < s then reduceAces (s - 10) n else s

/-- `Blackjack::sumOptimal` (the `optimalTotal()` of the spec). -/
def sumOptimal (h : Hand) : Nat := reduceAces (nominalSum h) (aceCount h)

/-- Value of a card when every Ace is valued 1 and every other card at its
nominal game value (vocabulary of the spec's optimal-total property). -/
def minValue (c : Card) : Nat := if c.isAce then 1 else c.getGameValue

/-- Total of a hand with every Ace valued 1: the least total obtainable by
valuing each Ace as 1 or 11. -/
def minSum (h : Hand) : Nat := (h.map minValue).sum

theorem getGameValue_split (c : Card) :
    c.getGameValue = minValue c + (if c.isAce then 10 else 0) := by
  unfold minValue
  cases hA : c.isAce with
  | true =>
    have hs : c.faceValueString = "A" := eq_of_beq hA
    simp only [if_pos rfl]
    unfold Card.getGameValue
    rw [hs]
    decide
  | false => simp

theorem nominalSum_eq (h : Hand) : nominalSum h = minSum h + 10 * aceCount h := by
  induction h with
  | nil => rfl
  | cons c t ih =>
    have h1 : nominalSum (c :: t) = c.getGameValue + nominalSum t := by
      simp [nominalSum]
    have h2 : minSum (c :: t) = minValue c + minSum t := by
      simp [minSum]
    have h3 : aceCount (c :: t) = (if c.isAce then 1 else 0) + aceCount t := by
      simp only [aceCount, List.countP_cons]
      cases c.isAce <;> simp [Nat.add_comm]
    rw [h1, h2, h3, ih, getGameValue_split c]
    cases c.isAce <;> simp <;> ring

theorem reduceAces_zero (s : Nat) : reduceAces s 0 = s := rfl

theorem reduceAces_succ (s n : Nat) :
    reduceAces s (n + 1) = if 21 < s then reduceAces (s - 10) n else s := rfl

theorem reduceAces_exists (k m : Nat) :
    ∃ j ≤ k, reduceAces (m + 10 * k) k = m + 10 * j := by
  induction k with
  | zero => exact ⟨0, Nat.le_refl 0, by simp [reduceAces]⟩
  | succ n ih =>
    by_cases hgt : 21 < m + 10 * (n + 1)
    · obtain ⟨j, hj, hval⟩ := ih
      refine ⟨j, Nat.le_succ_of_le hj, ?_⟩
      rw [reduceAces_succ, if_pos hgt, show m + 10 * (n + 1) - 10 = m + 10 * n from by omega,
        hval]
    · exact ⟨n + 1, Nat.le_refl _, by rw [reduceAces_succ, if_neg hgt]⟩

theorem reduceAces_le_and_max (k m : Nat) (hm : m ≤ 21) :
    reduceAces (m + 10 * k) k ≤ 21 ∧
      ∀ i ≤ k, m + 10 * i ≤ 21 → m + 10 * i ≤ reduceAces (m + 10 * k) k := by
  induction k with
  | zero =>
    refine ⟨by simpa [reduceAces] using hm, ?_⟩
    intro i hi _
    have : i = 0 := Nat.le_zero.mp hi
    simp [this, reduceAces]
  | succ n ih =>
    by_cases hgt : 21 < m + 10 * (n + 1)
    · have hred : reduceAces (m + 10 * (n + 1)) (n + 1) = reduceAces (m + 10 * n) n := by
        rw [reduceAces_succ, if_pos hgt,
          show m + 10 * (n + 1) - 10 = m + 10 * n from by omega]
      obtain ⟨hle, hmax⟩ := ih
      refine ⟨by rwa [hred], ?_⟩
      intro i hi hile
      rcases Nat.lt_or_ge i (n + 1) with hlt | hge
      · rw [hred]; exact hmax i (by omega) hile
      · exfalso; have : i = n + 1 := by omega
        omega
    · have hred : reduceAces (m + 10 * (n + 1)) (n + 1) = m + 10 * (n + 1) := by
        rw [reduceAces_succ, if_neg hgt]
      refine ⟨by rw [hred]; omega, ?_⟩
      intro i hi _
      rw [hred]; omega

theorem reduceAces_bust (k m : Nat) (hm : 21 < m) :
    reduceAces (m + 10 * k) k = m := by
  induction k with
  | zero => simp [reduceAces]
  | succ n ih =>
    have hgt : 21 < m + 10 * (n + 1) := by omega
    rw [reduceAces_succ, if_pos hgt,
      show m + 10 * (n + 1) - 10 = m + 10 * n from by omega, ih]

/-- Claim C1: for every hand, `sumOptimal` returns an achievable valuation
(each Ace 1 or 11, other cards nominal), it is the maximum achievable total
that stays ≤ 21 whenever one exists (equivalently, whenever the all-Aces-at-1
total is ≤ 21), otherwise it is the total with every Ace valued 1; and for a
hand with no Aces it is the plain sum of nominal game values. -/
theorem sumOptimal_is_max_le21 (h : Hand) :
    (∃ j ≤ aceCount h, sumOptimal h = minSum h + 10 * j) ∧
    (minSum h ≤ 21 → sumOptimal h ≤ 21 ∧
        ∀ i ≤ aceCount h, minSum h + 10 * i ≤ 21 → minSum h + 10 * i ≤ sumOptimal h) ∧
    (21 < minSum h → sumOptimal h = minSum h) ∧
    (aceCount h = 0 → sumOptimal h = nominalSum h) := by
  have hs : sumOptimal h = reduceAces (minSum h + 10 * aceCount h) (aceCount h) := by
    rw [sumOptimal, nominalSum_eq]
  refine ⟨?_, ?_, ?_, ?_⟩
  · rw [hs]; exact reduceAces_exists _ _
  · intro hm; rw [hs]; exact reduceAces_le_and_max _ _ hm
  · intro hm; rw [hs]; exact reduceAces_bust _ _ hm
  · intro h0; rw [sumOptimal, h0]; rfl

/-- A concrete hand with two Aces and a Nine (nominal 31, optimal 21). -/
def handAA9 : Hand := [⟨"A", "spades"⟩, ⟨"A", "hearts"⟩, ⟨"9", "clubs"⟩]

/-- Witness for C1 at the hand {A, A, 9}. -/
theorem sumOptimal_is_max_le21_witness : sumOptimal handAA9 ≤ 21 :=
  ((sumOptimal_is_max_le21 handAA9).2.1 (by decide)).1

/-- The outcome-determination chain of `Blackjack::concludeRound`, in source
order, returning `(playerWon, dealerWon, wonWithBlackjack)`. -/
def concludeOutcome (playerHand dealerHand : Hand) : Bool × Bool × Bool :=
  let dealerSum := sumOptimal dealerHand
  let playerSum := sumOptimal playerHand
  if 21 < playerSum then (false, true, false)
  else if 21 < dealerSum then (true, false, false)
  else if dealerSum < playerSum ∧ playerSum < 21 then (true, false, false)
  else if playerSum < dealerSum ∧ dealerSum < 21 then (false, true, false)
  else if playerSum = 21 ∧ dealerSum ≠ 21 then (true, false, decide (playerHand.length = 2))
  else if dealerSum = 21 ∧ playerSum ≠ 21 then (false, true, decide (dealerHand.length = 2))
  else if dealerSum = 21 ∧ playerSum = 21 then
    if playerHand.length = 2 ∧ dealerHand.length ≠ 2 then (true, false, true)
    else if playerHand.length ≠ 2 ∧ dealerHand.length = 2 then (false, true, true)
    else (false, false, false)
  else (false, false, false)

/-- The payout section of `Blackjack::concludeRound`: if `wonWithBlackjack`
then `payout(bet, 1.5)`; else if `playerWon && !wonWithBlackjack` then
`payout(bet, 1)`; else nothing is added (`payout(bet, f)` performs
`playerMoney += thisRoundBet * f + thisRoundBet`).  Returns the amount added
to `playerMoney`. -/
def payoutDelta (who : Bool × Bool × Bool) (thisRoundBet : ℚ) : ℚ :=
  if who.2.2 then thisRoundBet * 1.5 + thisRoundBet
  else if who.1 && !who.2.2 then thisRoundBet * 1 + thisRoundBet
  else if who.2.1 then 0
  else 0

/-- Largest value `std::stoi` can produce (INT_MAX): on a digits-only numeral
above it, `stoi` throws `std::out_of_range`, which
`Blackjack::requestBetAmount` does not catch. -/
def INT_MAX : Nat := 2147483647

/-- Result of `Blackjack::requestBetAmount` on a finite stream of console
tokens: a bet accepted with the unread tokens, a crash by uncaught exception,
or exhaustion of the token list (the C++ loop would keep prompting). -/
inductive BetResult where
  | accepted (bet : Nat) (rest : List String)
  | crashed
  | exhausted
  deriving DecidableEq, Repr

/-- `Blackjack::requestBetAmount` over an explicit token list: reject tokens
with a non-digit character; on digits-only tokens, `stoi` crashes above
INT_MAX, values below 1 or above `playerMoney` are rejected with a fresh
prompt, anything else is accepted.  The function never writes `playerMoney`. -/
def requestBetAmount (playerMoney : ℚ) : List String → BetResult
  | [] => .exhausted
  | s :: rest =>
    if s.data.all Char.isDigit then
      if INT_MAX < stoiM s then .crashed
      else if stoiM s < 1 then requestBetAmount playerMoney rest
      else if playerMoney < (stoiM s : ℚ) then requestBetAmount playerMoney rest
      else .accepted (stoiM s) rest
    else requestBetAmount playerMoney rest

/-- Blackjack.h: `MONEY_AT_START = 10`. -/
def MONEY_AT_START : ℚ := 10

/-- The money state of the Blackjack class: `playerMoney` and `thisRoundBet`.
Both are C++ doubles; every value arising in the game is an integer multiple
of 1/2 of small magnitude, represented exactly by a double, so ℚ models the
double arithmetic faithfully. -/
structure GameState where
  playerMoney : ℚ
  thisRoundBet : ℚ
  deriving DecidableEq, Repr

/-- Initial state of a session (Blackjack.h field initialisers). -/
def initState : GameState := ⟨MONEY_AT_START, 0⟩

/-- The two bankroll-affecting steps of `Blackjack::playRound` /
`Blackjack::concludeRound`: accepting a bet deducts it
(`playerMoney = playerMoney - thisRoundBet`), and concluding a round adds
the payout of the computed outcome. -/
inductive Step : GameState → GameState → Prop
  | placeBet (s : GameState) (b : Nat) (toks rest : List String)
      (hacc : requestBetAmount s.playerMoney toks = .accepted b rest) :
      Step s ⟨s.playerMoney - b, b⟩
  | resolve (s : GameState) (ph dh : Hand) :
      Step s ⟨s.playerMoney + payoutDelta (concludeOutcome ph dh) s.thisRoundBet,
        s.thisRoundBet⟩

/-- States reachable from the start of a session. -/
inductive Reachable : GameState → Prop
  | init : Reachable initState
  | step {s t : GameState} : Reachable s → Step s t → Reachable t

/-- Result of `Hand::removeLastCard`, whose body is the single unguarded call
`cardsInHand.pop_back()`: on an empty hand it violates the `pop_back`
precondition (undefined behavior), marked `ub`; no error branch exists. -/
inductive RemoveResult where
  | ok (h : Hand)
  | ub
  deriving DecidableEq, Repr

/-- `Hand::removeLastCard`. -/
def removeLastCard : Hand → RemoveResult
  | [] => .ub
  | h => .ok h.dropLast

/-- The two construction-time validation failures of Card.cpp (the spec's
names for the two distinct error-and-exit paths). -/
inductive CardError where
  | InvalidRank
  | InvalidSuit
  deriving DecidableEq, Repr

/-- `Card::errorCheckCardValue`: the error fires iff
`s < "2" || s > "9" && (s != "10" && s != "J" && s != "Q" && s != "K" && s != "A")`
with C++ lexicographic string comparison. -/
def errorCheckCardValue (s : String) : Bool :=
  strLt s "2" || (strLt "9" s && !(s == "10" || s == "J" || s == "Q" || s == "K" || s == "A"))

/-- `Card::errorCheckCardSymbol`: the error fires iff the symbol is none of
the four suit strings. -/
def errorCheckCardSymbol (s : String) : Bool :=
  !(s == "hearts" || s == "diamonds" || s == "clubs" || s == "spades")

/-- `Card::Card(string, string)`: validate the rank, then the suit, then
store both; a validation failure prints and exits with no other effect. -/
def mkCard (faceValueString_ symbolString_ : String) : Except CardError Card :=
  if errorCheckCardValue faceValueString_ then .error .InvalidRank
  else if errorCheckCardSymbol symbolString_ then .error .InvalidSuit
  else .ok ⟨faceValueString_, symbolString_⟩

/-- `Card::generateRandomCardValueString` applied to the draw
`rand() % 13 + 1`. -/
def generateRandomCardValueString (r : Nat) : String :=
  let randomValue := r % 13 + 1
  if randomValue = 1 then "A"
  else if randomValue = 11 then "J"
  else if randomValue = 12 then "Q"
  else if randomValue = 13 then "K"
  else toString randomValue

/-- The 13 face-value strings a randomly generated card can carry. -/
def randomRankStrings : List String := (List.range 13).map generateRandomCardValueString

/-- The dealer-turn loop of `Blackjack::playRound`:
`while (sumOptimal(dealerHand) < 17) dealerHand.addRandomCards(1);`,
drawing card `stream i` at step `i`, with explicit fuel; `none` means the
fuel ran out while the loop guard still held. -/
def dealerLoop (stream : Nat → Card) : Nat → Nat → Hand → Option Hand
  | 0, _, h => if sumOptimal h < 17 then none else some h
  | fuel + 1, i, h =>
      if sumOptimal h < 17 then dealerLoop stream fuel (i + 1) (addCard h (stream i))
      else some h

/-- Player hand {10, 9}: a plain 19. -/
def pTen9 : Hand := [⟨"10", "spades"⟩, ⟨"9", "hearts"⟩]

/-- Dealer hand {A, K}: a two-card 21 (dealer blackjack). -/
def dAK : Hand := [⟨"A", "clubs"⟩, ⟨"K", "diamonds"⟩]

/-- Claim C2 (code-bug exhibit): when the dealer holds a two-card 21
the computed state is (playerWon = false, dealerWon = true,
wonWithBlackjack = true), and the payout section — whose first branch tests
`wonWithBlackjack` alone — adds bet * 2.5 (here 10 for bet 4) to the
bankroll instead of 0, so the balance does not stay at its post-deduction
value as the claim requires. -/
theorem dealerBlackjack_pays_player :
    concludeOutcome pTen9 dAK = (false, true, true) ∧
    payoutDelta (concludeOutcome pTen9 dAK) 4 = 10 ∧
    (10 : ℚ) - 4 + payoutDelta (concludeOutcome pTen9 dAK) 4 ≠ (10 : ℚ) - 4 := by
  have h1 : concludeOutcome pTen9 dAK = (false, true, true) := by decide
  refine ⟨h1, ?_, ?_⟩ <;> rw [h1] <;> norm_num [payoutDelta]

/-- Push hands: player {10, 10} and dealer {10, 10}, both 20. -/
def hTT : Hand := [⟨"10", "spades"⟩, ⟨"10", "hearts"⟩]

/-- Second pair of tens for the dealer side of a push. -/
def hTT2 : Hand := [⟨"10", "clubs"⟩, ⟨"10", "diamonds"⟩]

/-- Claim C3 (code-bug exhibit): a Push round ends with nothing added — the
tie branch of `Blackjack::concludeRound` calls no payout although it prints
that the bet was returned.  Starting bankroll 10 with bet 5 ends at 5, not
at 10 as the claim (and the program's own message) state. -/
theorem push_loses_stake :
    concludeOutcome hTT hTT2 = (false, false, false) ∧
    (10 : ℚ) - 5 + payoutDelta (concludeOutcome hTT hTT2) 5 = 5 ∧ ((5 : ℚ) ≠ 10) := by
  have h1 : concludeOutcome hTT hTT2 = (false, false, false) := by decide
  refine ⟨h1, ?_, by norm_num⟩
  rw [h1]; norm_num [payoutDelta]

/-- Claim C4 (code-bug exhibit): `Card::errorCheckCardValue` compares
strings lexicographically, so the valid rank "10" is rejected (as a string,
"10" < "2") while the invalid rank "30" passes the range check (neither
below "2" nor above "9" lexicographically) and is stored. -/
theorem card_validation_lexicographic_bug :
    mkCard "10" "hearts" = .error .InvalidRank ∧
    mkCard "30" "hearts" = .ok ⟨"30", "hearts"⟩ ∧
    mkCard "5" "hearts" = .ok ⟨"5", "hearts"⟩ ∧
    mkCard "5" "stars" = .error .InvalidSuit := ⟨rfl, rfl, rfl, rfl⟩

theorem minSum_le_sumOptimal (h : Hand) : minSum h ≤ sumOptimal h := by
  have hs : sumOptimal h = reduceAces (minSum h + 10 * aceCount h) (aceCount h) := by
    rw [sumOptimal, nominalSum_eq]
  obtain ⟨j, hj, hval⟩ := reduceAces_exists (aceCount h) (minSum h)
  rw [hs, hval]; omega

theorem minSum_addCard (h : Hand) (c : Card) :
    minSum (addCard h c) = minSum h + minValue c := by
  simp [minSum, addCard]

theorem randomRankStrings_eq :
    randomRankStrings
      = ["A", "2", "3", "4", "5", "6", "7", "8", "9", "10", "J", "Q", "K"] := by decide

theorem one_le_minValue_of_random (c : Card)
    (hc : c.faceValueString ∈ randomRankStrings) : 1 ≤ minValue c := by
  have hval : minValue c
      = if c.faceValueString == "A" then 1 else gameValueOfFace c.faceValueString := rfl
  rw [randomRankStrings_eq] at hc
  rw [hval]
  simp only [List.mem_cons, List.not_mem_nil, or_false] at hc
  rcases hc with h | h | h | h | h | h | h | h | h | h | h | h | h <;> rw [h] <;> decide

theorem dealerLoop_zero (stream : Nat → Card) (i : Nat) (h : Hand) :
    dealerLoop stream 0 i h = if sumOptimal h < 17 then none else some h := rfl

theorem dealerLoop_succ (stream : Nat → Card) (fuel i : Nat) (h : Hand) :
    dealerLoop stream (fuel + 1) i h
      = if sumOptimal h < 17 then dealerLoop stream fuel (i + 1) (addCard h (stream i))
        else some h := rfl

theorem dealerLoop_some (stream : Nat → Card)
    (hv : ∀ i, (stream i).faceValueString ∈ randomRankStrings) :
    ∀ fuel i h, 17 ≤ minSum h + fuel →
      ∃ h2, dealerLoop stream fuel i h = some h2 ∧ 17 ≤ sumOptimal h2 := by
  intro fuel
  induction fuel with
  | zero =>
    intro i h hfuel
    have h17 : 17 ≤ sumOptimal h :=
      le_trans (by omega : (17 : ℕ) ≤ minSum h) (minSum_le_sumOptimal h)
    refine ⟨h, ?_, h17⟩
    rw [dealerLoop_zero, if_neg (by omega)]
  | succ n ih =>
    intro i h hfuel
    by_cases hlt : sumOptimal h < 17
    · have hstep : dealerLoop stream (n + 1) i h
          = dealerLoop stream n (i + 1) (addCard h (stream i)) := by
        rw [dealerLoop_succ, if_pos hlt]
      have hone : 1 ≤ minValue (stream i) := one_le_minValue_of_random _ (hv i)
      obtain ⟨h2, hh2, h17⟩ := ih (i + 1) (addCard h (stream i))
        (by rw [minSum_addCard]; omega)
      exact ⟨h2, by rw [hstep]; exact hh2, h17⟩
    · refine ⟨h, ?_, by omega⟩
      rw [dealerLoop_succ, if_neg hlt]

/-- Claim C5: for every starting dealer hand and every stream of randomly
generated cards (each carrying one of the 13 face values
`Card::generateRandomCardValueString` can produce), the dealer-turn loop
terminates — fuel 17 always suffices, as every drawn card adds at least 1
to the all-Aces-at-1 total — and the final hand satisfies
`sumOptimal ≥ 17` (possibly above 21). -/
theorem dealerTurn_terminates (h : Hand) (stream : Nat → Card)
    (hv : ∀ i, (stream i).faceValueString ∈ randomRankStrings) (i : Nat) :
    ∃ h2, dealerLoop stream 17 i h = some h2 ∧ 17 ≤ sumOptimal h2 :=
  dealerLoop_some stream hv 17 i h (by omega)

/-- A stream dealing a 5 of hearts forever. -/
def constFiveStream : Nat → Card := fun _ => ⟨"5", "hearts"⟩

/-- Witness for C5: from the empty dealer hand, drawing only fives, the loop
stops at a total of at least 17 within the fuel bound. -/
theorem dealerTurn_terminates_witness :
    ∃ h2, dealerLoop constFiveStream 17 0 [] = some h2 ∧ 17 ≤ sumOptimal h2 :=
  dealerTurn_terminates [] constFiveStream
    (fun _ => by show ("5" : String) ∈ randomRankStrings; decide) 0

/-- Player hand {A, K}: a two-card 21 (blackjack shape). -/
def pAK : Hand := [⟨"A", "spades"⟩, ⟨"K", "hearts"⟩]

/-- Dealer hand {9, 9, 9}: a busted 27. -/
def d999 : Hand := [⟨"9", "spades"⟩, ⟨"9", "hearts"⟩, ⟨"9", "clubs"⟩]

/-- Claim C6 counterexample: with player {A, K} and dealer {9, 9, 9} the code
reaches the dealer-bust branch before any blackjack test, so the computed
result is a plain player win — `wonWithBlackjack` is false — and the payout
for bet 1 is 2, not the claimed 2.5. -/
theorem blackjack_vs_bust_counterexample :
    concludeOutcome pAK d999 = (true, false, false) ∧
    payoutDelta (concludeOutcome pAK d999) 1 = 2 ∧ ((2 : ℚ) ≠ 2.5) := by
  have h1 : concludeOutcome pAK d999 = (true, false, false) := by decide
  refine ⟨h1, ?_, by norm_num⟩
  rw [h1]; norm_num [payoutDelta]

/-- Claim C6 amended: if at resolution the player holds the two-card 21
{A, K} and the dealer holds {9, 9, 9} (27, busted), the computed outcome is
the dealer-bust plain win (playerWon without blackjack) and the payout adds
bet * 2 to the bankroll. -/
theorem blackjack_vs_bust_amended (bet : ℚ) :
    concludeOutcome pAK d999 = (true, false, false) ∧
    payoutDelta (concludeOutcome pAK d999) bet = 2 * bet := by
  have h1 : concludeOutcome pAK d999 = (true, false, false) := by decide
  refine ⟨h1, ?_⟩
  rw [h1]
  show payoutDelta (true, false, false) bet = 2 * bet
  simp [payoutDelta]
  ring

theorem requestBetAmount_nil (money : ℚ) : requestBetAmount money [] = .exhausted := rfl

theorem requestBetAmount_cons (money : ℚ) (s : String) (rest : List String) :
    requestBetAmount money (s :: rest)
      = if s.data.all Char.isDigit then
          if INT_MAX < stoiM s then .crashed
          else if stoiM s < 1 then requestBetAmount money rest
          else if money < (stoiM s : ℚ) then requestBetAmount money rest
          else .accepted (stoiM s) rest
        else requestBetAmount money rest := rfl

/-- Claim C7 counterexample: with bankroll 10 the digits-only numeral
"9999999999" exceeds the bankroll, so by the claim it is a rejected bet that
re-prompts (after which "5" would be accepted); instead `stoi` throws an
uncaught `std::out_of_range` and the program terminates. -/
theorem requestBet_overflow_counterexample :
    requestBetAmount 10 ["9999999999", "5"] = .crashed ∧
    BetResult.crashed ≠ .accepted 5 [] := ⟨rfl, by decide⟩

/-- Claim C7 amended: a token is accepted exactly when it is digits-only
with value at most INT_MAX and `1 ≤ b ≤ bankroll`; non-numeric tokens and
in-int-range rejected values (below 1 or above the bankroll) re-prompt with
the bankroll untouched (the function never writes `playerMoney`); a
digits-only numeral above INT_MAX terminates the program via an uncaught
`std::out_of_range`; and an accepted bet `b` is deducted exactly once from
the bankroll. -/
theorem requestBet_amended (money : ℚ) (s : String) (rest : List String) :
    (s.data.all Char.isDigit = true → stoiM s ≤ INT_MAX → 1 ≤ stoiM s →
        (stoiM s : ℚ) ≤ money →
        requestBetAmount money (s :: rest) = .accepted (stoiM s) rest) ∧
    (s.data.all Char.isDigit = false →
        requestBetAmount money (s :: rest) = requestBetAmount money rest) ∧
    (s.data.all Char.isDigit = true → stoiM s ≤ INT_MAX →
        (stoiM s < 1 ∨ money < (stoiM s : ℚ)) →
        requestBetAmount money (s :: rest) = requestBetAmount money rest) ∧
    (s.data.all Char.isDigit = true → INT_MAX < stoiM s →
        requestBetAmount money (s :: rest) = .crashed) ∧
    (∀ (st : GameState) (toks rest2 : List String) (b : Nat),
        requestBetAmount st.playerMoney toks = .accepted b rest2 →
        Step st ⟨st.playerMoney - b, b⟩) := by
  refine ⟨?_, ?_, ?_, ?_, ?_⟩
  · intro hd hle h1 hmon
    rw [requestBetAmount_cons, if_pos hd, if_neg (Nat.not_lt.mpr hle),
      if_neg (Nat.not_lt.mpr h1), if_neg (not_lt.mpr hmon)]
  · intro hd
    rw [requestBetAmount_cons, if_neg (by simp [hd])]
  · intro hd hle hrej
    rcases hrej with hr | hr
    · rw [requestBetAmount_cons, if_pos hd, if_neg (Nat.not_lt.mpr hle), if_pos hr]
    · rw [requestBetAmount_cons, if_pos hd, if_neg (Nat.not_lt.mpr hle)]
      by_cases hz : stoiM s < 1
      · rw [if_pos hz]
      · rw [if_neg hz, if_pos hr]
  · intro hd hover
    rw [requestBetAmount_cons, if_pos hd, if_pos hover]
  · intro st toks rest2 b hacc
    exact Step.placeBet st b toks rest2 hacc

/-- Witness for C7 (amended) at bankroll 10 and token "5". -/
theorem requestBet_amended_witness : requestBetAmount 10 ["5"] = .accepted 5 [] := by
  have h5 : stoiM "5" = 5 := rfl
  have hres := (requestBet_amended 10 "5" []).1 rfl (by rw [h5]; decide)
    (by rw [h5]; decide) (by rw [h5]; norm_num)
  rw [h5] at hres
  exact hres

/-- Claim C8 counterexample: on the empty hand `Hand::removeLastCard`
performs the unguarded `pop_back` — the undefined-behavior case — rather
than failing with any checked EmptyHand error (no such branch exists in the
source). -/
theorem removeLast_empty_counterexample : removeLastCard [] = .ub := rfl

/-- Claim C8 amended: on a non-empty hand `removeLastCard` removes exactly
the most recently added card and leaves the others unchanged; on the empty
hand it performs the unguarded `pop_back` (undefined behavior) — the
EmptyHand error branch the claim requires does not exist. -/
theorem removeLast_amended (h : Hand) (c : Card) :
    removeLastCard (addCard h c) = .ok h ∧ removeLastCard [] = .ub := by
  constructor
  · have heq : removeLastCard (addCard h c) = .ok ((h ++ [c]).dropLast) := by
      cases h with
      | nil => rfl
      | cons a t => rfl
    rw [heq, List.dropLast_concat]
  · rfl

theorem requestBet_accepted_bounds (money : ℚ) :
    ∀ (toks : List String) (b : Nat) (rest : List String),
      requestBetAmount money toks = .accepted b rest → 1 ≤ b ∧ (b : ℚ) ≤ money := by
  intro toks
  induction toks with
  | nil =>
    intro b rest hacc
    rw [requestBetAmount_nil] at hacc
    exact BetResult.noConfusion hacc
  | cons s rest2 ih =>
    intro b rest hacc
    rw [requestBetAmount_cons] at hacc
    by_cases hd : s.data.all Char.isDigit = true
    · rw [if_pos hd] at hacc
      by_cases hover : INT_MAX < stoiM s
      · rw [if_pos hover] at hacc
        exact BetResult.noConfusion hacc
      · rw [if_neg hover] at hacc
        by_cases hz : stoiM s < 1
        · rw [if_pos hz] at hacc
          exact ih b rest hacc
        · rw [if_neg hz] at hacc
          by_cases hmon : money < (stoiM s : ℚ)
          · rw [if_pos hmon] at hacc
            exact ih b rest hacc
          · rw [if_neg hmon] at hacc
            injection hacc with hb hr
            subst hb
            exact ⟨by omega, not_lt.mp hmon⟩
    · rw [if_neg hd] at hacc
      exact ih b rest hacc

theorem payoutDelta_nonneg (who : Bool × Bool × Bool) (bet : ℚ) (hb : 0 ≤ bet) :
    0 ≤ payoutDelta who bet := by
  rcases who with ⟨p, d, w⟩
  cases w <;> cases p <;> cases d <;> simp [payoutDelta] <;> linarith

theorem step_preserves_nonneg (a t : GameState) (hstep : Step a t)
    (ha : 0 ≤ a.playerMoney ∧ 0 ≤ a.thisRoundBet) :
    0 ≤ t.playerMoney ∧ 0 ≤ t.thisRoundBet := by
  cases hstep with
  | placeBet b toks rest hacc =>
    obtain ⟨hb1, hb2⟩ := requestBet_accepted_bounds a.playerMoney toks b rest hacc
    constructor
    · show 0 ≤ a.playerMoney - (b : ℚ)
      linarith
    · show 0 ≤ ((b : Nat) : ℚ)
      exact Nat.cast_nonneg b
  | resolve ph dh =>
    have hd2 := payoutDelta_nonneg (concludeOutcome ph dh) a.thisRoundBet ha.2
    constructor
    · show 0 ≤ a.playerMoney + payoutDelta (concludeOutcome ph dh) a.thisRoundBet
      linarith [ha.1]
    · exact ha.2

theorem reachable_money_bet_nonneg (s : GameState) (hr : Reachable s) :
    0 ≤ s.playerMoney ∧ 0 ≤ s.thisRoundBet := by
  induction hr with
  | init => constructor <;> norm_num [initState, MONEY_AT_START]
  | step hprev hstep ih => exact step_preserves_nonneg _ _ hstep ih

/-- Claim C9: in every state reachable from the start of a session by
accepted bets (which are deducted) and round resolutions (which only add
the payout of the computed outcome), the bankroll is non-negative. -/
theorem bankroll_never_negative (s : GameState) (hr : Reachable s) :
    0 ≤ s.playerMoney := (reachable_money_bet_nonneg s hr).1

/-- Witness for C9 at the initial state. -/
theorem bankroll_never_negative_witness : 0 ≤ initState.playerMoney :=
  bankroll_never_negative initState Reachable.init

/-- Claim C10: a session starts with the bankroll equal to
MONEY_AT_START = 10 and the round bet equal to 0 (the Blackjack.h field
initialisers), and this state is the root of the reachable-state relation. -/
theorem session_initial_state :
    initState.playerMoney = 10 ∧ initState.thisRoundBet = 0 ∧ Reachable initState :=
  ⟨rfl, rfl, Reachable.init⟩
